import Mathlib

/-!
Shallow embedding of the query/write coordinator of a clustered time-series
database (package `coordinator`, file `coordinator.go`), together with proofs
about its shard fan-out scheduling, error capture, sink-close discipline,
write routing, and continuous-query dispatch.

External collaborators (parser, cluster catalog, shard storage, aggregation
engines, the network sink) are modelled as parameters: a shard is a record of
the answers and the response stream it would deliver, the engine yield results
are an oracle function, and sink interactions are recorded in an event trace.
-/

namespace Coordinator

/-! ## Data model (protocol.Series, protocol.Response) -/

/-- Embeds `protocol.Point`: a timestamp pointer (optional) and an optional
sequence number.  Field values are not needed by the verified claims. -/
structure Point where
  timestamp : Option Int
  sequenceNumber : Option Nat
  deriving Repr, DecidableEq

/-- Embeds `protocol.Series`: name, field names and points. -/
structure Series where
  name : String
  fields : List String
  points : List Point
  deriving Repr, DecidableEq

/-- Embeds `protocol.Response_Type` (the constants bound at the top of
coordinator.go: queryResponse, endStreamResponse, accessDeniedResponse,
heartbeatResponse, explainQueryResponse). -/
inductive RespType
  | queryResponse
  | explainQueryResponse
  | endStreamResponse
  | accessDeniedResponse
  | heartbeatResponse
  deriving Repr, DecidableEq

/-- Embeds `protocol.Response` with the fields the coordinator reads:
`Type`, `Series`, `MultiSeries` (list-series path) and `ErrorMessage`. -/
structure Response where
  type : RespType
  series : Option Series
  multiSeries : List Series
  errorMessage : Option String
  deriving Repr, DecidableEq

/-- Embeds the terminal-response test
`*response.Type == endStreamResponse || *response.Type == accessDeniedResponse`. -/
def Response.isTerminal (r : Response) : Bool :=
  r.type == .endStreamResponse || r.type == .accessDeniedResponse

/-- Embeds `common.QueryError` / authorization errors as far as the
coordinator constructs them.  `invalidArgument m` stands for
`common.NewQueryError(common.InvalidArgument, m)`. -/
inductive QErr
  | invalidArgument (msg : String)
  | authorizationError (msg : String)
  | genericError (msg : String)
  deriving Repr, DecidableEq

/-! ## Query spec and shards -/

/-- Embeds the part of `parser.SelectQuery` read by `getShardsAndProcessor`:
the `Limit` field. -/
structure SelectQuery where
  limit : Int
  deriving Repr, DecidableEq

/-- Embeds the part of `parser.QuerySpec` read by `runQuerySpec` and
`getShardsAndProcessor`: whether the statement is a SELECT (and its limit)
and whether it is an EXPLAIN query. -/
structure QuerySpec where
  selectQuery : Option SelectQuery
  isExplainQuery : Bool
  deriving Repr, DecidableEq

/-- Embeds a `cluster.ShardData` as seen by the coordinator for one fixed
query spec: the answer of `shard.ShouldAggregateLocally(querySpec)` (computed
inside the external cluster package) and the response stream that
`shard.Query(querySpec, responseChan)` would deliver on its channel, in
order. -/
structure ShardData where
  aggregateLocally : Bool
  stream : List Response
  deriving Repr, DecidableEq

/-- Embeds `CoordinatorImpl.shouldAggregateLocally`: false as soon as one
shard answers false, true otherwise. -/
def shouldAggregateLocally (shards : List ShardData) : Bool :=
  shards.all (·.aggregateLocally)

/-- Embeds `CoordinatorImpl.shouldQuerySequentially`: raw points are coming
back, so drain sequentially. -/
def shouldQuerySequentially (shards : List ShardData) : Bool :=
  !(shouldAggregateLocally shards)

/-- Embeds the three `cluster.QueryProcessor` implementations chosen by
`getShardsAndProcessor` (`engine.NewQueryEngine`,
`engine.NewPassthroughEngineWithLimit`, `engine.NewPassthroughEngine`).
Their construction never fails in the model (the `engine` package is an
external collaborator). -/
inductive QueryProcessor
  | queryEngine
  | passthroughWithLimit (limit : Int)
  | passthroughEngine
  deriving Repr, DecidableEq

/-- Embeds the processor decision of `CoordinatorImpl.getShardsAndProcessor`:
the if/else-if chain on `selectQuery != nil`, `shouldAggregateLocally` and
`selectQuery.Limit > 0`.  Returns the shard list unchanged together with the
processor (`none` embeds a nil processor). -/
def getShardsAndProcessor (querySpec : QuerySpec) (shards : List ShardData) :
    List ShardData × Option QueryProcessor :=
  let aggLocal := shouldAggregateLocally shards
  let processor : Option QueryProcessor :=
    match querySpec.selectQuery with
    | some selectQuery =>
        if !aggLocal then some .queryEngine
        else if selectQuery.limit > 0 then some (.passthroughWithLimit selectQuery.limit)
        else none
    | none =>
        if !aggLocal then some .passthroughEngine else none
  (shards, processor)

/-! ## Event trace for runQuerySpec

Sink interactions and fan-out bookkeeping are observed through a trace:
`start i` records `go shard.Query` being launched for shard slot `i`,
`yield b` records a `processor.YieldSeries` call returning `b`,
`term i msg sched` records the terminal response of slot `i` being consumed
(with its error message, and whether the code scheduled the next unstarted
shard at that moment), `sinkWrite` and `sinkClose` record `seriesWriter`
calls. -/

inductive Ev
  | start (i : Nat)
  | yield (b : Bool)
  | term (i : Nat) (msg : Option String) (sched : Bool)
  | sinkWrite (s : Series)
  | sinkClose
  deriving Repr, DecidableEq

/-- Count of `Ev.start` events: how many shard queries have been launched. -/
def countStarts (t : List Ev) : Nat :=
  (t.filter fun e => match e with | .start _ => true | _ => false).length

/-- Count of `Ev.term` events: how many consumed shards have terminated. -/
def countTerms (t : List Ev) : Nat :=
  (t.filter fun e => match e with | .term _ _ _ => true | _ => false).length

/-- Count of terminal events at which the next shard was scheduled. -/
def countScheds (t : List Ev) : Nat :=
  (t.filter fun e => match e with | .term _ _ true => true | _ => false).length

/-- The results of the `processor.YieldSeries` calls, in order. -/
def yields (t : List Ev) : List Bool :=
  t.filterMap fun e => match e with | .yield b => some b | _ => none

/-- The value of the local variable `shouldContinue` after the trace `t`:
the most recent `YieldSeries` result, `false` before any call (runQuerySpec
declares `shouldContinue := false`). -/
def lastYield (t : List Ev) : Bool :=
  ((yields t).getLast?).getD false

/-- Error messages of consumed terminal responses, in consumption order. -/
def termMsgs (t : List Ev) : List String :=
  t.filterMap fun e => match e with | .term _ (some m) _ => some m | _ => none

/-- Count of `Ev.sinkClose` events. -/
def countCloses (t : List Ev) : Nat :=
  (t.filter fun e => match e with | .sinkClose => true | _ => false).length

/-- Embeds the error-capture guard of `runQuerySpec`:
`if response.ErrorMessage != nil && err == nil { err = NewQueryError(InvalidArgument, msg) }`. -/
def captureErr (msg : Option String) (err : Option QErr) : Option QErr :=
  match msg, err with
  | some m, none => some (.invalidArgument m)
  | _, _ => err

/-- State threaded through the runQuerySpec consumer loop: the locals
`err` and `shouldContinue`, the trace of observable events, a call counter
for the yield oracle, and a `hung` flag set when a channel receive would
block forever (a shard stream with no terminal response). -/
structure RunState where
  trace : List Ev
  shouldContinue : Bool
  yieldCount : Nat
  err : Option QErr
  hung : Bool
  deriving Repr

/-- Embeds the inner `for { response := <-responseChan ... }` loop of
`runQuerySpec` for the shard at slot `i`.  `started` is the number of shard
queries launched so far (Go tracks `nextIndex`, which starts at
`shardConcurrentLimit`; initial launches are slots `0..min(limit,len)-1` and
scheduled launches are slots `limit, limit+1, ...`, so whenever the guard
`nextIndex < len(shards)` can hold, `nextIndex` equals the number of started
shards — the model tracks that count directly).  `total` is `len(shards)`.
Returns the state and the updated `started`; an exhausted stream marks the
state `hung` (the Go receive would block forever). -/
def drainShard (isExplain : Bool) (hasProcessor : Bool) (oracle : Nat → Bool)
    (total : Nat) (i : Nat) :
    List Response → Nat → RunState → RunState × Nat
  | [], started, st => ({ st with hung := true }, started)
  | r :: rest, started, st =>
    if r.isTerminal then
      -- if response.ErrorMessage != nil && err == nil { err = NewQueryError(InvalidArgument, msg) }
      let st1 := { st with err := captureErr r.errorMessage st.err }
      -- if nextIndex < len(shards) && shouldContinue { go shard.Query(...); nextIndex += 1 }
      let sched := st1.shouldContinue && decide (started < total)
      let st2 := { st1 with trace := st1.trace ++ [Ev.term i r.errorMessage sched] }
      if sched then
        ({ st2 with trace := st2.trace ++ [Ev.start started] }, started + 1)
      else
        (st2, started)
    else
      match r.series with
      | none => drainShard isExplain hasProcessor oracle total i rest started st
      | some s =>
        if s.points.isEmpty then
          -- series has no points, continue
          drainShard isExplain hasProcessor oracle total i rest started st
        else if hasProcessor then
          -- shouldContinue = processor.YieldSeries(response.Series)
          let b := oracle st.yieldCount
          drainShard isExplain hasProcessor oracle total i rest started
            { st with trace := st.trace ++ [Ev.yield b], shouldContinue := b,
                      yieldCount := st.yieldCount + 1 }
        else if !(r.type == .queryResponse && isExplain) then
          -- seriesWriter.Write(response.Series)
          drainShard isExplain hasProcessor oracle total i rest started
            { st with trace := st.trace ++ [Ev.sinkWrite s] }
        else
          drainShard isExplain hasProcessor oracle total i rest started st

/-- Embeds the outer `for i, responseChan := range responses` loop of
`runQuerySpec`.  The shard at slot `i` has a non-nil response channel exactly
when `i < started` (started slots form a prefix, see `drainShard`); on a nil
channel the Go code breaks out. -/
def consumeShards (isExplain : Bool) (hasProcessor : Bool) (oracle : Nat → Bool)
    (total : Nat) :
    List ShardData → Nat → Nat → RunState → RunState
  | [], _, _, st => st
  | shard :: rest, i, started, st =>
    if started ≤ i then st
    else
      let p := drainShard isExplain hasProcessor oracle total i shard.stream started st
      if p.1.hung then p.1
      else consumeShards isExplain hasProcessor oracle total rest (i + 1) p.2 p.1

/-- Embeds the goroutine installed by `getShardsAndProcessor`: it drains the
processor's output channel, forwards non-empty series to the writer (unless
they are QUERY responses of an EXPLAIN query), and on the terminal response
closes the writer and signals `seriesClosed`.  In the model the processor's
channel content is a parameter (the engines are external) and is consumed
after the shard loop; an output with no terminal response leaves
`seriesClosed` unsignalled, i.e. hangs. -/
def drainProcessorOutput (isExplain : Bool) :
    List Response → RunState → RunState
  | [], st => { st with hung := true }
  | r :: rest, st =>
    if r.isTerminal then
      { st with trace := st.trace ++ [Ev.sinkClose] }
    else if !(r.type == .queryResponse && isExplain) then
      match r.series with
      | some s =>
        if s.points.isEmpty then drainProcessorOutput isExplain rest st
        else drainProcessorOutput isExplain rest { st with trace := st.trace ++ [Ev.sinkWrite s] }
      | none => drainProcessorOutput isExplain rest st
    else
      drainProcessorOutput isExplain rest st

/-- Inputs of one `runQuerySpec` call: the spec, the shards the catalog
returns for it, the configured `ConcurrentShardQueryLimit`, the successive
`YieldSeries` results of the processor (an oracle, since the engines live in
the external `engine` package), and the processor's output stream. -/
structure RunQuerySpecInput where
  querySpec : QuerySpec
  shards : List ShardData
  concurrentShardQueryLimit : Nat
  yieldOracle : Nat → Bool
  processorOutput : List Response

/-- The effective concurrency limit computed at the top of `runQuerySpec`:
`shardConcurrentLimit := self.config.ConcurrentShardQueryLimit`, set to 1
when `shouldQuerySequentially` holds. -/
def shardConcurrentLimit (inp : RunQuerySpecInput) : Nat :=
  if shouldQuerySequentially inp.shards then 1 else inp.concurrentShardQueryLimit

/-- Embeds `CoordinatorImpl.runQuerySpec`: choose the processor, clamp the
concurrency limit to 1 in sequential mode, launch the first
`min(limit, len(shards))` shard queries, consume the response channels in
catalog order (scheduling further shards at terminals), then either close
the processor and wait for the goroutine to close the sink, or close the
sink directly. -/
def runQuerySpec (inp : RunQuerySpecInput) : RunState :=
  let sp := getShardsAndProcessor inp.querySpec inp.shards
  let shards := sp.1
  let processor := sp.2
  let started := min (shardConcurrentLimit inp) shards.length
  let st0 : RunState :=
    { trace := (List.range started).map Ev.start, shouldContinue := false,
      yieldCount := 0, err := none, hung := false }
  let st1 := consumeShards inp.querySpec.isExplainQuery processor.isSome
    inp.yieldOracle shards.length shards 0 started st0
  if st1.hung then st1
  else
    match processor with
    | some _ =>
      -- processor.Close(); <-seriesClosed
      drainProcessorOutput inp.querySpec.isExplainQuery inp.processorOutput st1
    | none =>
      -- seriesWriter.Close()
      { st1 with trace := st1.trace ++ [Ev.sinkClose] }

/-! ## runListSeriesQuery -/

/-- Upper bound `SHARDS_TO_QUERY_FOR_LIST_SERIES` on the number of short-term
and long-term shards queried by the list-series path. -/
def SHARDS_TO_QUERY_FOR_LIST_SERIES : Nat := 10

/-- Result of the list-series path: the names already yielded (the
`seriesYielded` map), the series written to the sink in order, the number of
`seriesWriter.Close()` calls, the error local, and whether a receive hung. -/
structure ListSeriesResult where
  yielded : List String
  written : List Series
  closes : Nat
  err : Option QErr
  hung : Bool
  deriving Repr

/-- Embeds the `for _, series := range response.MultiSeries` body of
`runListSeriesQuery`: write each series whose name was not yielded before. -/
def yieldMultiSeries :
    List Series → List String → List Series → List String × List Series
  | [], yielded, written => (yielded, written)
  | s :: rest, yielded, written =>
    if yielded.contains s.name then
      yieldMultiSeries rest yielded written
    else
      yieldMultiSeries rest (s.name :: yielded) (written ++ [s])

/-- Embeds the inner receive loop of `runListSeriesQuery` for one shard.
Note the guard on the error capture is
`response.ErrorMessage != nil && err != nil` — it overwrites `err` only when
`err` is already non-nil (the inverted guard flagged in the design notes).
Returns `(yielded, written, err, hung)`. -/
def listSeriesDrain :
    List Response → List String → List Series → Option QErr →
      List String × List Series × Option QErr × Bool
  | [], yielded, written, err => (yielded, written, err, true)
  | r :: rest, yielded, written, err =>
    if r.isTerminal then
      match r.errorMessage, err with
      | some m, some _ => (yielded, written, some (.invalidArgument m), false)
      | _, _ => (yielded, written, err, false)
    else
      let p := yieldMultiSeries r.multiSeries yielded written
      listSeriesDrain rest p.1 p.2 err

/-- The shard loop of `runListSeriesQuery`. -/
def listSeriesLoop :
    List (List Response) → List String → List Series → Option QErr →
      List String × List Series × Option QErr × Bool
  | [], yielded, written, err => (yielded, written, err, false)
  | stream :: rest, yielded, written, err =>
    let q := listSeriesDrain stream yielded written err
    if q.2.2.2 then q
    else listSeriesLoop rest q.1 q.2.1 q.2.2.1

/-- Embeds `CoordinatorImpl.runListSeriesQuery`: query at most the first 10
short-term shards then at most the first 10 long-term shards (each shard
given by the response stream its `Query` call delivers), dedupe written
series by name, close the sink once at the end, return the error local. -/
def runListSeriesQuery (shortTermShards longTermShards : List (List Response)) :
    ListSeriesResult :=
  let shards := shortTermShards.take SHARDS_TO_QUERY_FOR_LIST_SERIES ++
    longTermShards.take SHARDS_TO_QUERY_FOR_LIST_SERIES
  let q := listSeriesLoop shards [] [] none
  if q.2.2.2 then
    { yielded := q.1, written := q.2.1, closes := 0, err := q.2.2.1, hung := true }
  else
    { yielded := q.1, written := q.2.1, closes := 1, err := q.2.2.1, hung := false }

/-! ## RunQuery dispatch -/

/-- Embeds one parsed statement of `parser.ParseQuery` together with the
external answers its handler reads: authorization bits of the user (the
`common.User` interface is external) and consensus-layer results.  The
constructors follow the dispatch order in `RunQuery`. -/
inductive Stmt
  /-- DeleteQuery: `runDeleteQuery` checks `user.IsDbAdmin(db)` then runs the
  spec against the shards. -/
  | deleteQ (dbAdmin : Bool) (q : RunQuerySpecInput)
  /-- DropQuery (drop continuous query): `DeleteContinuousQuery` checks
  `IsClusterAdmin || IsDbAdmin` then asks the consensus layer. -/
  | dropQ (authOk : Bool) (raftErr : Option String)
  /-- list series. -/
  | listSeries (shortTermShards longTermShards : List (List Response))
  /-- list continuous queries: `ListContinuousQueries` checks authorization;
  the sink writes may fail. -/
  | listCq (authOk : Bool) (sinkWriteErr : Option String)
  /-- DropSeriesQuery: `runDropSeriesQuery` checks
  `IsClusterAdmin || IsDbAdmin || HasWriteAccess(series)` then runs the spec. -/
  | dropSeriesQ (authOk : Bool) (q : RunQuerySpecInput)
  /-- a SELECT ... INTO continuous query: `CreateContinuousQuery` checks
  authorization then asks the consensus layer, and `RunQuery` returns its
  result directly. -/
  | selectContinuous (authOk : Bool) (raftErr : Option String)
  /-- an ordinary SELECT: `RunQuery` returns `runQuery` = `runQuerySpec`. -/
  | selectQ (q : RunQuerySpecInput)

/-- Result of a `RunQuery` call: the returned error, how many times the
caller-supplied sink's `Close()` ran over the whole call, and whether the
call hung on a channel. -/
structure RunQueryResult where
  err : Option QErr
  closes : Nat
  hung : Bool
  deriving Repr

/-- Embeds the `for _, query := range q` statement loop of `RunQuery`,
accumulating the number of sink closes.  After the loop `RunQuery` calls
`seriesWriter.Close()` once more. -/
def runStatements : List Stmt → Nat → RunQueryResult
  | [], closes => { err := none, closes := closes + 1, hung := false }
  | stmt :: rest, closes =>
    match stmt with
    | .deleteQ dbAdmin q =>
      if !dbAdmin then
        { err := some (.authorizationError "Insufficient permission to write"),
          closes := closes, hung := false }
      else
        let r := runQuerySpec q
        let closes1 := closes + countCloses r.trace
        if r.hung then { err := none, closes := closes1, hung := true }
        else
          match r.err with
          | some e => { err := some e, closes := closes1, hung := false }
          | none => runStatements rest closes1
    | .dropQ authOk raftErr =>
      if !authOk then
        { err := some (.authorizationError "Insufficient permissions to delete continuous query"),
          closes := closes, hung := false }
      else
        match raftErr with
        | some m => { err := some (.genericError m), closes := closes, hung := false }
        | none => runStatements rest closes
    | .listSeries shortT longT =>
      -- the return value of runListSeriesQuery is discarded by RunQuery
      let r := runListSeriesQuery shortT longT
      let closes1 := closes + r.closes
      if r.hung then { err := none, closes := closes1, hung := true }
      else runStatements rest closes1
    | .listCq authOk sinkWriteErr =>
      if !authOk then
        { err := some (.authorizationError "Insufficient permissions to list continuous queries"),
          closes := closes, hung := false }
      else
        match sinkWriteErr with
        | some m => { err := some (.genericError m), closes := closes, hung := false }
        | none => runStatements rest closes
    | .dropSeriesQ authOk q =>
      if !authOk then
        { err := some (.authorizationError "Insufficient permissions to drop series"),
          closes := closes, hung := false }
      else
        let r := runQuerySpec q
        let closes1 := closes + countCloses r.trace
        if r.hung then { err := none, closes := closes1, hung := true }
        else
          match r.err with
          | some e => { err := some e, closes := closes1, hung := false }
          | none => runStatements rest closes1
    | .selectContinuous authOk raftErr =>
      -- return self.CreateContinuousQuery(...): RunQuery exits here either way
      if !authOk then
        { err := some (.authorizationError "Insufficient permissions to create continuous query"),
          closes := closes, hung := false }
      else
        match raftErr with
        | some m => { err := some (.genericError m), closes := closes, hung := false }
        | none => { err := none, closes := closes, hung := false }
    | .selectQ q =>
      -- return self.runQuery(...) = runQuerySpec
      let r := runQuerySpec q
      let closes1 := closes + countCloses r.trace
      if r.hung then { err := none, closes := closes1, hung := true }
      else { err := r.err, closes := closes1, hung := false }

/-- Embeds `CoordinatorImpl.RunQuery`.  The parser is external, so its result
is the input: either a parse error (returned as-is, before any sink
interaction) or the statement list.  The `recoverFunc` guard converts panics
to a diagnostic without touching the sink; panics themselves are outside the
shallow embedding. -/
def RunQuery (parsed : Except String (List Stmt)) : RunQueryResult :=
  match parsed with
  | .error msg => { err := some (.genericError msg), closes := 0, hung := false }
  | .ok stmts => runStatements stmts 0

/-! ## Write path: CommitSeriesData -/

/-- Embeds the `protocol.Request` handed to `shard.Write` by
`CoordinatorImpl.write`: type WRITE, the database, the series slice, plus
the id of the shard it goes to. -/
structure WriteRequest where
  db : String
  name : String
  fields : List String
  points : List Point
  shardId : Nat
  deriving Repr, DecidableEq

/-- Error outcomes of `CommitSeriesData`: a shard lookup error returned
directly, a `shard.Write` error, or the nil-pointer dereference that happens
when the tail flush ignores a failed lookup and calls `Write` on a nil
shard. -/
inductive CommitErr
  | lookupError (msg : String)
  | writeError (msg : String)
  | nilShardPanic
  deriving Repr, DecidableEq

/-- Result of `CommitSeriesData`: all `shard.Write` requests issued, in
order, and the error the call returns (`none` on success).  Requests issued
before a failure stay issued (no rollback). -/
structure CommitResult where
  requests : List WriteRequest
  err : Option CommitErr
  deriving Repr, DecidableEq

/-- Embeds the timestamp-filling loop of `CommitSeriesData`: a point whose
`Timestamp` pointer is nil gets the coordinator's current time. -/
def fillTimestamps (now : Int) (points : List Point) : List Point :=
  points.map fun p =>
    match p.timestamp with
    | none => { p with timestamp := some now }
    | some _ => p

/-- Insert a point into a descending-by-timestamp list, after all points
with a greater-or-equal timestamp (so equal timestamps keep their original
relative order). -/
def insertPointDesc (p : Point) : List Point → List Point
  | [] => [p]
  | q :: rest =>
    if q.timestamp.getD 0 ≥ p.timestamp.getD 0 then q :: insertPointDesc p rest
    else p :: q :: rest

/-- Embeds `series.SortPointsTimeDescending()` (defined in the external
protocol package): a stable sort of the points by timestamp, descending,
realised as an insertion sort. -/
def sortPointsTimeDescending (points : List Point) : List Point :=
  points.foldr insertPointDesc []

/-- Intermediate state of the `CommitSeriesData` sweep loop when it stops
(either the list is exhausted or an error ends the call early). -/
structure SweepResult where
  shardToWrite : Option Nat
  run : List Point
  requests : List WriteRequest
  err : Option CommitErr
  deriving Repr, DecidableEq

/-- Embeds the sweep loop of `CommitSeriesData`.  `run` holds the points
since `lastPointIndex` (the Go code keeps indices into the sorted slice; the
accumulated run is exactly `points[lastPointIndex:i]`), `lastTime` starts at
0, `shardToWrite` at nil.  At the first point of each distinct timestamp the
catalog is asked for the shard; a different shard id flushes the run as one
write request.  A lookup or write error returns immediately; an issued but
failing write request is still recorded as issued. -/
def commitSweep (db name : String) (fields : List String)
    (shardFor : String → String → Int → Except String Nat)
    (writeToShard : WriteRequest → Option String) :
    List Point → Int → List Point → Option Nat → List WriteRequest → SweepResult
  | [], _, run, shardToWrite, acc =>
    { shardToWrite := shardToWrite, run := run, requests := acc, err := none }
  | p :: rest, lastTime, run, shardToWrite, acc =>
    let ts := p.timestamp.getD 0
    if ts ≠ lastTime then
      match shardFor db name ts with
      | .error e =>
        { shardToWrite := shardToWrite, run := run, requests := acc,
          err := some (.lookupError e) }
      | .ok shard =>
        match shardToWrite with
        | none =>
          commitSweep db name fields shardFor writeToShard rest ts (run ++ [p]) (some shard) acc
        | some s0 =>
          if s0 ≠ shard then
            let req : WriteRequest := ⟨db, name, fields, run, s0⟩
            match writeToShard req with
            | some e =>
              { shardToWrite := some s0, run := run, requests := acc ++ [req],
                err := some (.writeError e) }
            | none =>
              commitSweep db name fields shardFor writeToShard rest ts [p] (some shard)
                (acc ++ [req])
          else
            commitSweep db name fields shardFor writeToShard rest ts (run ++ [p]) (some s0) acc
    else
      commitSweep db name fields shardFor writeToShard rest lastTime (run ++ [p]) shardToWrite acc

/-- Embeds `CoordinatorImpl.CommitSeriesData`.  The catalog lookup
`GetShardToWriteToBySeriesAndTime` and `shard.Write` are external, passed as
oracles.  After the sweep, the remaining tail (`series.Points[lastPointIndex:]`)
is flushed; if `shardToWrite` is still nil its lookup error is ignored
(`shardToWrite, _ = ...`), so a failing lookup there leaves a nil shard and
the subsequent `shard.Write` dereferences nil. -/
def CommitSeriesData (shardFor : String → String → Int → Except String Nat)
    (writeToShard : WriteRequest → Option String) (now : Int)
    (db : String) (series : Series) : CommitResult :=
  let points := sortPointsTimeDescending (fillTimestamps now series.points)
  let sw := commitSweep db series.name series.fields shardFor writeToShard points 0 [] none []
  match sw.err with
  | some e => { requests := sw.requests, err := some e }
  | none =>
    match sw.run with
    | [] => { requests := sw.requests, err := none }
    | p :: _ =>
      let finalShard :=
        match sw.shardToWrite with
        | some s => some s
        | none => (shardFor db series.name (p.timestamp.getD 0)).toOption
      match finalShard with
      | none => { requests := sw.requests, err := some .nilShardPanic }
      | some s =>
        let req : WriteRequest := ⟨db, series.name, series.fields, sw.run, s⟩
        match writeToShard req with
        | some e => { requests := sw.requests ++ [req], err := some (.writeError e) }
        | none => { requests := sw.requests ++ [req], err := none }

/-! ## Continuous queries -/

/-- Embeds a FROM-clause table name (`table.Name` in
`ProcessContinuousQueries`): either a value with a compiled regex (the
compiled regex is modelled as its match predicate) or a literal name. -/
inductive TableName
  | regexName (matchesName : String → Bool)
  | literal (name : String)

/-- Embeds a registered parsed continuous query as the coordinator reads it:
the `Elems` field of its GROUP BY clause (`parser.GroupByClause.Elems` is a
`[]*Value`; `none` embeds a nil slice, `some l` a non-nil slice of length
`l.length`), the FROM-clause names and the INTO-clause target name. -/
structure ContinuousQuery where
  groupByElems : Option (List Unit)
  fromNames : List TableName
  targetName : String

/-- Embeds the `for _, table := range fromClause.Names` body of
`ProcessContinuousQueries` for the query at index `i`: one
`InterpolateValuesAndCommit(db, series, targetName, false)` call per
matching table entry, recorded as `(i, targetName)`. -/
def matchFromNames (incomingSeriesName : String) (targetName : String) (i : Nat) :
    List TableName → List (Nat × String)
  | [] => []
  | .regexName matchesName :: rest =>
    (if matchesName incomingSeriesName then [(i, targetName)] else []) ++
      matchFromNames incomingSeriesName targetName i rest
  | .literal name :: rest =>
    (if name == incomingSeriesName then [(i, targetName)] else []) ++
      matchFromNames incomingSeriesName targetName i rest

/-- The `for _, query := range ParsedContinuousQueries[db]` loop of
`ProcessContinuousQueries`, indexing the queries from `i`.  A query whose
GROUP BY clause has a non-nil `Elems` slice is skipped with `continue`. -/
def cqLoop (incomingSeriesName : String) :
    List ContinuousQuery → Nat → List (Nat × String)
  | [], _ => []
  | q :: rest, i =>
    (if q.groupByElems ≠ none then []
     else matchFromNames incomingSeriesName q.targetName i q.fromNames) ++
      cqLoop incomingSeriesName rest (i + 1)

/-- Embeds `CoordinatorImpl.ProcessContinuousQueries`: if the parsed-CQ map
is non-nil, run the per-query loop for the incoming series name.  The result
is the list of `InterpolateValuesAndCommit` invocations performed, tagged
with the index of the continuous query that caused each one. -/
def ProcessContinuousQueries (parsedContinuousQueries : Option (List ContinuousQuery))
    (series : Series) : List (Nat × String) :=
  match parsedContinuousQueries with
  | none => []
  | some queries => cqLoop series.name queries 0

/-! ## WriteSeriesData -/

/-- Result of a `WriteSeriesData` call: the returned error, the shard write
requests issued by `CommitSeriesData`, and the continuous-query commit
invocations triggered afterwards. -/
structure WriteSeriesResult where
  err : Option QErr
  requests : List WriteRequest
  cqCommits : List (Nat × String)
  deriving Repr

/-- Embeds `CoordinatorImpl.WriteSeriesData`: check `user.HasWriteAccess(db)`
(the user is external, its answer a parameter), reject a series with zero
points, commit the data, and on success process continuous queries. -/
def WriteSeriesData (hasWriteAccess : Bool)
    (shardFor : String → String → Int → Except String Nat)
    (writeToShard : WriteRequest → Option String) (now : Int)
    (parsedContinuousQueries : Option (List ContinuousQuery))
    (db : String) (series : Series) : WriteSeriesResult :=
  if !hasWriteAccess then
    { err := some (.authorizationError "Insufficient permissions to write"),
      requests := [], cqCommits := [] }
  else if series.points.length == 0 then
    { err := some (.genericError "Cant write series with zero points."),
      requests := [], cqCommits := [] }
  else
    let c := CommitSeriesData shardFor writeToShard now db series
    match c.err with
    | some e =>
      { err := some (.genericError (toString (repr e))), requests := c.requests, cqCommits := [] }
    | none =>
      { err := none, requests := c.requests,
        cqCommits := ProcessContinuousQueries parsedContinuousQueries series }

/-! ## Specification predicates over traces -/

/-- At every consumed terminal response, the decision to schedule the next
unstarted shard is exactly: the most recent `YieldSeries` call returned true
(`false` before any call) and an unstarted shard remains. -/
def SchedOk (total : Nat) (t : List Ev) : Prop :=
  ∀ pre i m sched post, t = pre ++ Ev.term i m sched :: post →
    sched = (lastYield pre && decide (countStarts pre < total))

/-- At every point of the execution, the number of shard queries launched
exceeds the number of consumed shard terminations by at most `limit`: at no
time are more than `limit` shard queries running. -/
def ConcBound (limit : Nat) (t : List Ev) : Prop :=
  ∀ pre post, t = pre ++ post → countStarts pre ≤ countTerms pre + limit

/-- Invariant of the `runQuerySpec` consumer loop, tying the bookkeeping
state to the observable trace.  `total` is the number of shards, `initial`
the number of initially launched shard queries, `limit` the effective
concurrency limit, `hasProc` whether a processor was installed, and
`started` the number of shard queries launched so far. -/
structure Inv (total initial limit : Nat) (hasProc : Bool) (started : Nat)
    (st : RunState) : Prop where
  starts_eq : countStarts st.trace = started
  scheds_eq : started = initial + countScheds st.trace
  yield_eq : lastYield st.trace = st.shouldContinue
  sched_ok : SchedOk total st.trace
  no_yields : hasProc = false → yields st.trace = []
  started_le : started ≤ countTerms st.trace + limit
  conc_bound : ConcBound limit st.trace
  err_eq : st.err = (termMsgs st.trace).head?.map QErr.invalidArgument
  init_pre : ∃ u, st.trace = (List.range initial).map Ev.start ++ u

/-- Sample data used by concrete counterexamples and witnesses. -/
def endResp : Response :=
  { type := .endStreamResponse, series := none, multiSeries := [], errorMessage := none }

/-- Terminal response carrying an error message. -/
def endRespMsg (m : String) : Response :=
  { type := .endStreamResponse, series := none, multiSeries := [], errorMessage := some m }

/-- Sample one-point series. -/
def sampleSeries : Series :=
  { name := "s", fields := ["value"], points := [{ timestamp := some 1, sequenceNumber := none }] }

/-- Sample QUERY response carrying one point. -/
def queryResp : Response :=
  { type := .queryResponse, series := some sampleSeries, multiSeries := [], errorMessage := none }

/-- Concrete `runQuerySpec` input with no processor: a non-SELECT spec over
two locally-aggregating shards, configured concurrency limit 1. -/
def cNoProcInput : RunQuerySpecInput :=
  { querySpec := { selectQuery := none, isExplainQuery := false },
    shards := [⟨true, [endResp]⟩, ⟨true, [endResp]⟩],
    concurrentShardQueryLimit := 1,
    yieldOracle := fun _ => true,
    processorOutput := [] }

/-- Concrete `runQuerySpec` input in sequential mode: the first shard does
not aggregate locally, the processor always yields true. -/
def cSeqInput : RunQuerySpecInput :=
  { querySpec := { selectQuery := some ⟨0⟩, isExplainQuery := false },
    shards := [⟨false, [queryResp, endResp]⟩, ⟨true, [queryResp, endRespMsg "boom2"]⟩],
    concurrentShardQueryLimit := 5,
    yieldOracle := fun _ => true,
    processorOutput := [endResp] }

/-- Concrete `runQuerySpec` input where two shards terminate with error
messages "boom1" and "boom2", in that consumption order. -/
def cErrInput : RunQuerySpecInput :=
  { querySpec := { selectQuery := some ⟨0⟩, isExplainQuery := false },
    shards := [⟨false, [queryResp, endRespMsg "boom1"]⟩, ⟨true, [endRespMsg "boom2"]⟩],
    concurrentShardQueryLimit := 3,
    yieldOracle := fun _ => true,
    processorOutput := [endResp] }

/-! ## Theorems -/

/-- C2 (counterexample): a SELECT with positive LIMIT over shards that all
aggregate locally gets a limit-aware passthrough processor, not a nil one as
the claim states. -/
theorem getShardsAndProcessor_allLocal_limit_cex :
    shouldAggregateLocally [⟨true, []⟩] = true ∧
      (getShardsAndProcessor ⟨some ⟨5⟩, false⟩ [⟨true, []⟩]).2 =
        some (.passthroughWithLimit 5) :=
  ⟨rfl, rfl⟩

/-- C2 (amended): if every selected shard reports
`shouldAggregateLocally(spec) == true` and the query is not a SELECT with a
positive LIMIT, then `getShardsAndProcessor` installs no processor. -/
theorem getShardsAndProcessor_allLocal_no_processor (querySpec : QuerySpec)
    (shards : List ShardData)
    (hagg : shouldAggregateLocally shards = true)
    (hlim : ∀ sq, querySpec.selectQuery = some sq → sq.limit ≤ 0) :
    (getShardsAndProcessor querySpec shards).2 = none := by
  unfold getShardsAndProcessor
  rcases hsel : querySpec.selectQuery with _ | sq
  · simp [hsel, hagg]
  · have := hlim sq hsel
    simp [hsel, hagg]
    omega

/-- C2 (witness for the amended theorem): a SELECT with limit 0 over a
locally-aggregating shard gets no processor. -/
theorem getShardsAndProcessor_allLocal_no_processor_witness :
    (getShardsAndProcessor ⟨some ⟨0⟩, false⟩ [⟨true, []⟩]).2 = none :=
  getShardsAndProcessor_allLocal_no_processor ⟨some ⟨0⟩, false⟩ [⟨true, []⟩]
    (by decide) (by intro sq h; cases h; decide)

/-- C6 (counterexample): a non-SELECT spec over a shard that does not
aggregate locally gets a plain passthrough engine, so the processor is not
nil regardless of the claim. -/
theorem getShardsAndProcessor_nonSelect_cex :
    (⟨none, false⟩ : QuerySpec).selectQuery = none ∧
      (getShardsAndProcessor ⟨none, false⟩ [⟨false, []⟩]).2 = some .passthroughEngine :=
  ⟨rfl, rfl⟩

/-- C6 (amended): a non-SELECT spec gets no processor exactly when every
selected shard aggregates locally; when some shard does not, it gets a plain
passthrough engine. -/
theorem getShardsAndProcessor_nonSelect (querySpec : QuerySpec)
    (shards : List ShardData) (hsel : querySpec.selectQuery = none) :
    (getShardsAndProcessor querySpec shards).2 =
      if shouldAggregateLocally shards then none else some .passthroughEngine := by
  unfold getShardsAndProcessor
  rcases h : shouldAggregateLocally shards <;> simp [hsel, h]

/-- C6 (witness for the amended theorem): evaluated on one locally
aggregating shard and on one that is not. -/
theorem getShardsAndProcessor_nonSelect_witness :
    (getShardsAndProcessor ⟨none, false⟩ [⟨true, []⟩]).2 =
      (if shouldAggregateLocally [⟨true, []⟩] then none else some .passthroughEngine) :=
  getShardsAndProcessor_nonSelect ⟨none, false⟩ [⟨true, []⟩] rfl

/-- C7 (code bug): a shard whose stream terminates with
`errorMessage = "boom"` leaves the error of `runListSeriesQuery` nil, because
the capture guard `response.ErrorMessage != nil && err != nil` requires the
error to be already non-nil.  The sink is still closed once. -/
theorem runListSeriesQuery_drops_error :
    (runListSeriesQuery [[endRespMsg "boom"]] []).err = none ∧
      (runListSeriesQuery [[endRespMsg "boom"]] []).closes = 1 :=
  ⟨rfl, rfl⟩

/-- C1 (code bug): a completed `RunQuery` call does not always close the
sink exactly once.  A successful single list-series statement closes it
twice (once inside `runListSeriesQuery`, once at the end of `RunQuery`), and
a call whose query string fails to parse returns an error without closing it
at all. -/
theorem RunQuery_close_count_cex :
    (RunQuery (.ok [Stmt.listSeries [] []])).closes = 2 ∧
      (RunQuery (.ok [Stmt.listSeries [] []])).err = none ∧
      (RunQuery (.error "parse failure")).closes = 0 :=
  ⟨rfl, rfl, rfl⟩

/-- Every commit recorded by `matchFromNames` is tagged with the index and
target of the query being processed. -/
theorem matchFromNames_mem (incoming target : String) (i : Nat) :
    ∀ (names : List TableName) (p : Nat × String),
      p ∈ matchFromNames incoming target i names → p = (i, target) := by
  intro names
  induction names with
  | nil => intro p h; simp [matchFromNames] at h
  | cons hd tl ih =>
    intro p h
    cases hd with
    | regexName f =>
      rw [matchFromNames] at h
      rcases List.mem_append.mp h with h1 | h1
      · split at h1 <;> simp at h1
        exact h1
      · exact ih p h1
    | literal n =>
      rw [matchFromNames] at h
      rcases List.mem_append.mp h with h1 | h1
      · split at h1 <;> simp at h1
        exact h1
      · exact ih p h1

/-- Every commit recorded by the continuous-query loop comes from a query
whose GROUP BY `Elems` slice is nil, and its tag locates that query. -/
theorem cqLoop_mem (incoming : String) :
    ∀ (qs : List ContinuousQuery) (i0 : Nat) (p : Nat × String),
      p ∈ cqLoop incoming qs i0 →
      ∃ k q, qs.get? k = some q ∧ p.1 = i0 + k ∧ q.groupByElems = none := by
  intro qs
  induction qs with
  | nil => intro i0 p h; simp [cqLoop] at h
  | cons q rest ih =>
    intro i0 p h
    rw [cqLoop] at h
    rcases List.mem_append.mp h with h1 | h1
    · by_cases hgb : q.groupByElems = none
      · have hp := matchFromNames_mem incoming q.targetName i0 q.fromNames p
          (by simpa [hgb] using h1)
        exact ⟨0, q, rfl, by simp [hp], hgb⟩
      · simp [hgb] at h1
    · rcases ih (i0 + 1) p h1 with ⟨k, q1, hget, hfst, hnone⟩
      exact ⟨k + 1, q1, by simpa using hget, by omega, hnone⟩

/-- C9: a registered continuous query whose GROUP BY clause has a non-nil
element list is skipped entirely by `ProcessContinuousQueries` — no
interpolate-and-commit invocation is ever attributed to it, for any incoming
series. -/
theorem ProcessContinuousQueries_skips_groupBy (queries : List ContinuousQuery)
    (series : Series) (i : Nat) (q : ContinuousQuery) (target : String)
    (hq : queries.get? i = some q) (hgb : q.groupByElems ≠ none) :
    (i, target) ∉ ProcessContinuousQueries (some queries) series := by
  intro hmem
  rw [ProcessContinuousQueries] at hmem
  rcases cqLoop_mem series.name queries 0 (i, target) hmem with ⟨k, q1, hget, hfst, hnone⟩
  simp at hfst
  rw [← hfst, hq] at hget
  cases hget
  exact hgb hnone

/-- C9 (witness): a continuous query with a non-nil (empty) GROUP BY element
list triggers no commit for a sample series. -/
theorem ProcessContinuousQueries_skips_groupBy_witness :
    (0, "target") ∉
      ProcessContinuousQueries (some [⟨some [], [.literal "s"], "target"⟩]) sampleSeries :=
  ProcessContinuousQueries_skips_groupBy [⟨some [], [.literal "s"], "target"⟩]
    sampleSeries 0 ⟨some [], [.literal "s"], "target"⟩ "target" rfl (by simp)

/-- C10: a `WriteSeriesData` call by a user with write access on a series
with zero points returns an error, issues no shard write, and triggers no
continuous-query processing. -/
theorem WriteSeriesData_zero_points (hasWriteAccess : Bool)
    (shardFor : String → String → Int → Except String Nat)
    (writeToShard : WriteRequest → Option String) (now : Int)
    (parsedContinuousQueries : Option (List ContinuousQuery))
    (db : String) (series : Series)
    (hw : hasWriteAccess = true) (hpts : series.points = []) :
    (WriteSeriesData hasWriteAccess shardFor writeToShard now
        parsedContinuousQueries db series).err =
        some (.genericError "Cant write series with zero points.") ∧
      (WriteSeriesData hasWriteAccess shardFor writeToShard now
        parsedContinuousQueries db series).requests = [] ∧
      (WriteSeriesData hasWriteAccess shardFor writeToShard now
        parsedContinuousQueries db series).cqCommits = [] := by
  subst hw
  simp [WriteSeriesData, hpts]

/-- C10 (witness): evaluated on a concrete zero-point series. -/
theorem WriteSeriesData_zero_points_witness :
    (WriteSeriesData true (fun _ _ _ => .ok 0) (fun _ => none) 7 none "db"
        { name := "s", fields := [], points := [] }).err =
        some (.genericError "Cant write series with zero points.") ∧
      (WriteSeriesData true (fun _ _ _ => .ok 0) (fun _ => none) 7 none "db"
        { name := "s", fields := [], points := [] }).requests = [] ∧
      (WriteSeriesData true (fun _ _ _ => .ok 0) (fun _ => none) 7 none "db"
        { name := "s", fields := [], points := [] }).cqCommits = [] :=
  WriteSeriesData_zero_points true (fun _ _ _ => .ok 0) (fun _ => none) 7 none "db"
    { name := "s", fields := [], points := [] } rfl rfl

/-- Inserting one point grows the list by one. -/
theorem insertPointDesc_length (p : Point) :
    ∀ l : List Point, (insertPointDesc p l).length = l.length + 1 := by
  intro l
  induction l with
  | nil => rfl
  | cons q rest ih =>
    rw [insertPointDesc]
    split
    · simp [ih]
    · simp

/-- The stable sort keeps the number of points. -/
theorem sortPointsTimeDescending_length (l : List Point) :
    (sortPointsTimeDescending l).length = l.length := by
  unfold sortPointsTimeDescending
  induction l with
  | nil => rfl
  | cons q rest ih => simp [List.foldr_cons, insertPointDesc_length, ih]

/-- Point conservation of the `CommitSeriesData` sweep: when the sweep does
not fail, the points in the flushed requests plus the pending run account
exactly for the initial accumulator, pending run and input points. -/
theorem commitSweep_conservation (db name : String) (fields : List String)
    (shardFor : String → String → Int → Except String Nat)
    (writeToShard : WriteRequest → Option String) :
    ∀ (points : List Point) (lastTime : Int) (run : List Point)
      (shardToWrite : Option Nat) (acc : List WriteRequest),
      (commitSweep db name fields shardFor writeToShard points lastTime run
        shardToWrite acc).err = none →
      ((commitSweep db name fields shardFor writeToShard points lastTime run
          shardToWrite acc).requests.map fun q => q.points.length).sum +
        (commitSweep db name fields shardFor writeToShard points lastTime run
          shardToWrite acc).run.length =
      (acc.map fun q => q.points.length).sum + run.length + points.length := by
  intro points
  induction points with
  | nil =>
    intro lastTime run shardToWrite acc _
    simp [commitSweep]
  | cons p rest ih =>
    intro lastTime run shardToWrite acc h
    rw [commitSweep] at h ⊢
    by_cases hts : p.timestamp.getD 0 ≠ lastTime
    · rw [if_pos hts] at h ⊢
      rcases hsf : shardFor db name (p.timestamp.getD 0) with e | shard
      · rw [hsf] at h
        dsimp only at h
        exact absurd h (by simp)
      · rw [hsf] at h
        dsimp only at h ⊢
        rcases shardToWrite with _ | s0
        · dsimp only at h ⊢
          have hih := ih _ _ _ _ h
          simp only [List.length_append, List.length_cons, List.length_nil] at hih ⊢
          omega
        · dsimp only at h ⊢
          by_cases heq : s0 ≠ shard
          · rw [if_pos heq] at h ⊢
            rcases hw : writeToShard ⟨db, name, fields, run, s0⟩ with _ | e
            · rw [hw] at h
              dsimp only at h ⊢
              have hih := ih _ _ _ _ h
              simp only [List.map_append, List.sum_append, List.map_cons, List.map_nil,
                List.sum_cons, List.sum_nil, List.length_append, List.length_cons,
                List.length_nil] at hih ⊢
              omega
            · rw [hw] at h
              dsimp only at h
              exact absurd h (by simp)
          · rw [if_neg heq] at h ⊢
            have hih := ih _ _ _ _ h
            simp only [List.length_append, List.length_cons, List.length_nil] at hih ⊢
            omega
    · rw [if_neg hts] at h ⊢
      have hih := ih _ _ _ _ h
      simp only [List.length_append, List.length_cons, List.length_nil] at hih ⊢
      omega

/-- C8: for every series whose `CommitSeriesData` call returns without
error, the total number of points across all issued shard write requests
equals the number of input points: every point lands in exactly one flushed
request. -/
theorem CommitSeriesData_point_conservation
    (shardFor : String → String → Int → Except String Nat)
    (writeToShard : WriteRequest → Option String) (now : Int)
    (db : String) (series : Series)
    (h : (CommitSeriesData shardFor writeToShard now db series).err = none) :
    ((CommitSeriesData shardFor writeToShard now db series).requests.map
      fun q => q.points.length).sum = series.points.length := by
  have hlen : (sortPointsTimeDescending (fillTimestamps now series.points)).length =
      series.points.length := by
    rw [sortPointsTimeDescending_length]
    simp [fillTimestamps]
  have hcons := commitSweep_conservation db series.name series.fields shardFor writeToShard
    (sortPointsTimeDescending (fillTimestamps now series.points)) 0 [] none []
  simp only [CommitSeriesData] at h ⊢
  rcases hsw : commitSweep db series.name series.fields shardFor writeToShard
      (sortPointsTimeDescending (fillTimestamps now series.points)) 0 [] none []
    with ⟨shardToWrite, run, requests, err⟩
  rw [hsw] at h hcons
  dsimp only at h hcons ⊢
  rcases err with _ | e
  · have hc := hcons rfl
    simp only [List.map_nil, List.sum_nil, List.length_nil, Nat.zero_add, Nat.add_zero] at hc
    dsimp only at h ⊢
    rcases run with _ | ⟨p, tl⟩
    · dsimp only at h ⊢
      simp only [List.length_nil, Nat.add_zero] at hc
      omega
    · dsimp only at h ⊢
      rcases shardToWrite with _ | s
      · dsimp only at h ⊢
        rcases hopt : (shardFor db series.name (p.timestamp.getD 0)).toOption with _ | s1
        · rw [hopt] at h
          dsimp only at h
          exact absurd h (by simp)
        · rw [hopt] at h
          dsimp only at h ⊢
          rcases hw : writeToShard ⟨db, series.name, series.fields, p :: tl, s1⟩ with _ | e
          · rw [hw] at h
            dsimp only at h ⊢
            simp only [List.map_append, List.sum_append, List.map_cons, List.map_nil,
              List.sum_cons, List.sum_nil, List.length_cons] at hc ⊢
            omega
          · rw [hw] at h
            dsimp only at h
            exact absurd h (by simp)
      · dsimp only at h ⊢
        rcases hw : writeToShard ⟨db, series.name, series.fields, p :: tl, s⟩ with _ | e
        · rw [hw] at h
          dsimp only at h ⊢
          simp only [List.map_append, List.sum_append, List.map_cons, List.map_nil,
            List.sum_cons, List.sum_nil, List.length_cons] at hc ⊢
          omega
        · rw [hw] at h
          dsimp only at h
          exact absurd h (by simp)
  · dsimp only at h
    exact absurd h (by simp)

/-- C8 (witness): three points at distinct timestamps routed to two shards
end up as two requests carrying three points in total. -/
theorem CommitSeriesData_point_conservation_witness :
    (((CommitSeriesData (fun _ _ ts => .ok (if ts ≥ 2 then 1 else 0)) (fun _ => none) 9 "db"
        { name := "cpu", fields := ["v"],
          points := [{ timestamp := some 1, sequenceNumber := none },
                     { timestamp := some 2, sequenceNumber := none },
                     { timestamp := some 3, sequenceNumber := none }] }).requests.map
      fun q => q.points.length).sum = 3) :=
  CommitSeriesData_point_conservation (fun _ _ ts => .ok (if ts ≥ 2 then 1 else 0))
    (fun _ => none) 9 "db"
    { name := "cpu", fields := ["v"],
      points := [{ timestamp := some 1, sequenceNumber := none },
                 { timestamp := some 2, sequenceNumber := none },
                 { timestamp := some 3, sequenceNumber := none }] } (by decide)

/-! ### Trace algebra -/

/-- Starts counted across an append. -/
theorem countStarts_append (t u : List Ev) :
    countStarts (t ++ u) = countStarts t + countStarts u := by
  simp [countStarts, List.filter_append]

/-- Terminations counted across an append. -/
theorem countTerms_append (t u : List Ev) :
    countTerms (t ++ u) = countTerms t + countTerms u := by
  simp [countTerms, List.filter_append]

/-- Scheduling terminations counted across an append. -/
theorem countScheds_append (t u : List Ev) :
    countScheds (t ++ u) = countScheds t + countScheds u := by
  simp [countScheds, List.filter_append]

/-- Sink closes counted across an append. -/
theorem countCloses_append (t u : List Ev) :
    countCloses (t ++ u) = countCloses t + countCloses u := by
  simp [countCloses, List.filter_append]

/-- Yield results across an append. -/
theorem yields_append (t u : List Ev) : yields (t ++ u) = yields t ++ yields u := by
  simp [yields, List.filterMap_append]

/-- Terminal error messages across an append. -/
theorem termMsgs_append (t u : List Ev) : termMsgs (t ++ u) = termMsgs t ++ termMsgs u := by
  simp [termMsgs, List.filterMap_append]

/-- Appending events with no yields keeps the last yield result. -/
theorem lastYield_append_no_yield (t u : List Ev) (hu : yields u = []) :
    lastYield (t ++ u) = lastYield t := by
  simp [lastYield, yields_append, hu]

/-- Appending a yield event sets the last yield result. -/
theorem lastYield_append_yield (t : List Ev) (b : Bool) :
    lastYield (t ++ [Ev.yield b]) = b := by
  simp [lastYield, yields_append, yields, List.getLast?_concat]

/-- `SchedOk` is stable under appending one event, provided a terminal event
records exactly the scheduling decision determined by the trace so far. -/
theorem schedOk_snoc (total : Nat) (t : List Ev) (e : Ev) (h : SchedOk total t)
    (he : ∀ i m sched, e = Ev.term i m sched →
      sched = (lastYield t && decide (countStarts t < total))) :
    SchedOk total (t ++ [e]) := by
  intro pre i m sched post heq
  rcases List.eq_nil_or_concat post with hpost | ⟨post1, q, hpost⟩
  · subst hpost
    obtain ⟨ht, he2⟩ := List.append_inj' heq rfl
    injection he2 with h1 _
    subst ht
    exact he i m sched h1
  · subst hpost
    have heq2 : t ++ [e] = (pre ++ Ev.term i m sched :: post1) ++ [q] := by
      rw [heq]
      simp
    obtain ⟨ht, _⟩ := List.append_inj' heq2 rfl
    exact h pre i m sched post1 ht

/-- `ConcBound` is stable under appending one event whose resulting full
counts still satisfy the bound. -/
theorem concBound_snoc (limit : Nat) (t : List Ev) (e : Ev) (h : ConcBound limit t)
    (hfull : countStarts (t ++ [e]) ≤ countTerms (t ++ [e]) + limit) :
    ConcBound limit (t ++ [e]) := by
  intro pre post heq
  rcases List.eq_nil_or_concat post with hpost | ⟨post1, q, hpost⟩
  · subst hpost
    rw [List.append_nil] at heq
    rw [← heq]
    exact hfull
  · subst hpost
    have heq2 : t ++ [e] = (pre ++ post1) ++ [q] := by
      rw [heq]
      simp
    obtain ⟨ht, _⟩ := List.append_inj' heq2 rfl
    exact h pre post1 ht

/-- The initial start block contains `n` start events. -/
theorem countStarts_startBlock (n : Nat) :
    countStarts ((List.range n).map Ev.start) = n := by
  induction n with
  | zero => rfl
  | succ k ih =>
    rw [List.range_succ, List.map_append, countStarts_append, ih]
    rfl

/-- The initial start block contains no terminal events. -/
theorem countTerms_startBlock (n : Nat) :
    countTerms ((List.range n).map Ev.start) = 0 := by
  induction n with
  | zero => rfl
  | succ k ih =>
    rw [List.range_succ, List.map_append, countTerms_append, ih]
    rfl

/-- The initial start block contains no scheduling events. -/
theorem countScheds_startBlock (n : Nat) :
    countScheds ((List.range n).map Ev.start) = 0 := by
  induction n with
  | zero => rfl
  | succ k ih =>
    rw [List.range_succ, List.map_append, countScheds_append, ih]
    rfl

/-- The initial start block contains no yields. -/
theorem yields_startBlock (n : Nat) :
    yields ((List.range n).map Ev.start) = [] := by
  induction n with
  | zero => rfl
  | succ k ih =>
    rw [List.range_succ, List.map_append, yields_append, ih]
    rfl

/-- The initial start block contains no terminal messages. -/
theorem termMsgs_startBlock (n : Nat) :
    termMsgs ((List.range n).map Ev.start) = [] := by
  induction n with
  | zero => rfl
  | succ k ih =>
    rw [List.range_succ, List.map_append, termMsgs_append, ih]
    rfl

/-- `SchedOk` holds of the initial start block: it has no terminal events. -/
theorem schedOk_startBlock (total n : Nat) :
    SchedOk total ((List.range n).map Ev.start) := by
  intro pre i m sched post heq
  have hmem : Ev.term i m sched ∈ (List.range n).map Ev.start := by
    rw [heq]
    simp
  rcases List.mem_map.mp hmem with ⟨j, _, hj⟩
  cases hj

/-- `ConcBound` holds of the initial start block when it is within the
limit: a prefix of the block has at most `limit` starts and no terms. -/
theorem concBound_startBlock (limit n : Nat) (hn : n ≤ limit) :
    ConcBound limit ((List.range n).map Ev.start) := by
  intro pre post heq
  have hlen : pre.length ≤ n := by
    have := congrArg List.length heq
    simp at this
    omega
  have hsub : countStarts pre ≤ pre.length := by
    simp [countStarts]
    exact List.length_filter_le _ _
  omega

/-! ### Invariant preservation -/

/-- The invariant only reads the trace, `shouldContinue` and `err` fields. -/
theorem inv_congr (total initial limit : Nat) (hasProc : Bool) (started : Nat)
    (st st' : RunState) (hinv : Inv total initial limit hasProc started st)
    (htrace : st'.trace = st.trace) (hcont : st'.shouldContinue = st.shouldContinue)
    (herr : st'.err = st.err) :
    Inv total initial limit hasProc started st' := by
  obtain ⟨h1, h2, h3, h4, h5, h6, h7, h8, h9⟩ := hinv
  refine ⟨?_, ?_, ?_, ?_, ?_, ?_, ?_, ?_, ?_⟩ <;> rw [htrace]
  · exact h1
  · exact h2
  · rw [hcont]; exact h3
  · exact h4
  · exact h5
  · exact h6
  · exact h7
  · rw [herr]; exact h8
  · exact h9

/-- Appending a sink event (write or close) preserves the invariant. -/
theorem inv_sink (total initial limit : Nat) (hasProc : Bool) (started : Nat)
    (st st' : RunState) (e : Ev) (hinv : Inv total initial limit hasProc started st)
    (he : e = Ev.sinkClose ∨ ∃ s, e = Ev.sinkWrite s)
    (htrace : st'.trace = st.trace ++ [e])
    (hcont : st'.shouldContinue = st.shouldContinue)
    (herr : st'.err = st.err) :
    Inv total initial limit hasProc started st' := by
  have hs : countStarts [e] = 0 := by rcases he with h | ⟨s, h⟩ <;> subst h <;> rfl
  have htm : countTerms [e] = 0 := by rcases he with h | ⟨s, h⟩ <;> subst h <;> rfl
  have hsc : countScheds [e] = 0 := by rcases he with h | ⟨s, h⟩ <;> subst h <;> rfl
  have hy : yields [e] = [] := by rcases he with h | ⟨s, h⟩ <;> subst h <;> rfl
  have hmsg : termMsgs [e] = [] := by rcases he with h | ⟨s, h⟩ <;> subst h <;> rfl
  obtain ⟨h1, h2, h3, h4, h5, h6, h7, h8, h9⟩ := hinv
  refine ⟨?_, ?_, ?_, ?_, ?_, ?_, ?_, ?_, ?_⟩
  · rw [htrace, countStarts_append, hs, Nat.add_zero]; exact h1
  · rw [htrace, countScheds_append, hsc, Nat.add_zero]; exact h2
  · rw [htrace, lastYield_append_no_yield _ _ hy, hcont]; exact h3
  · rw [htrace]
    refine schedOk_snoc total _ e h4 ?_
    intro i m sched heq
    rcases he with h | ⟨s, h⟩ <;> subst h <;> cases heq
  · intro hp
    rw [htrace, yields_append, h5 hp, hy]
    rfl
  · rw [htrace, countTerms_append, htm, Nat.add_zero]; exact h6
  · rw [htrace]
    refine concBound_snoc limit _ e h7 ?_
    rw [countStarts_append, countTerms_append, hs, htm, h1]
    omega
  · rw [herr, htrace, termMsgs_append, hmsg, List.append_nil]; exact h8
  · obtain ⟨u, hu⟩ := h9
    exact ⟨u ++ [e], by rw [htrace, hu, List.append_assoc]⟩

/-- Appending a yield event preserves the invariant; a yield only happens
when a processor is installed. -/
theorem inv_yield_step (total initial limit : Nat) (started : Nat)
    (st st' : RunState) (b : Bool) (hinv : Inv total initial limit true started st)
    (htrace : st'.trace = st.trace ++ [Ev.yield b])
    (hcont : st'.shouldContinue = b)
    (herr : st'.err = st.err) :
    Inv total initial limit true started st' := by
  obtain ⟨h1, h2, h3, h4, h5, h6, h7, h8, h9⟩ := hinv
  refine ⟨?_, ?_, ?_, ?_, ?_, ?_, ?_, ?_, ?_⟩
  · rw [htrace, countStarts_append]; simpa using h1
  · rw [htrace, countScheds_append]; simpa using h2
  · rw [htrace, lastYield_append_yield, hcont]
  · rw [htrace]
    refine schedOk_snoc total _ _ h4 ?_
    intro i m sched heq
    cases heq
  · intro hp
    cases hp
  · rw [htrace, countTerms_append]; simpa using h6
  · rw [htrace]
    refine concBound_snoc limit _ _ h7 ?_
    rw [countStarts_append, countTerms_append, h1]
    have e1 : countStarts [Ev.yield b] = 0 := rfl
    have e2 : countTerms [Ev.yield b] = 0 := rfl
    omega
  · have e3 : termMsgs [Ev.yield b] = [] := rfl
    rw [herr, htrace, termMsgs_append, e3, List.append_nil]
    exact h8
  · obtain ⟨u, hu⟩ := h9
    exact ⟨u ++ [Ev.yield b], by rw [htrace, hu, List.append_assoc]⟩

/-- The terminal messages of a single terminal event are its message. -/
theorem termMsgs_term (i : Nat) (msg : Option String) (sched : Bool) :
    termMsgs [Ev.term i msg sched] = msg.toList := by
  cases msg <;> rfl

/-- Consuming a terminal response — recording the error message, emitting the
terminal event with the scheduling decision, and launching the next shard
when scheduled — preserves the invariant, with `started` grown accordingly. -/
theorem inv_term_step (total initial limit : Nat) (hasProc : Bool) (started : Nat)
    (st st' : RunState) (i : Nat) (msg : Option String) (sched : Bool) (started' : Nat)
    (hinv : Inv total initial limit hasProc started st)
    (hsched : sched = (st.shouldContinue && decide (started < total)))
    (hstarted : started' = if sched then started + 1 else started)
    (htrace : st'.trace = st.trace ++ [Ev.term i msg sched] ++
      (if sched then [Ev.start started] else []))
    (hcont : st'.shouldContinue = st.shouldContinue)
    (herr : st'.err = captureErr msg st.err) :
    Inv total initial limit hasProc started' st' := by
  obtain ⟨h1, h2, h3, h4, h5, h6, h7, h8, h9⟩ := hinv
  have herr2 : st'.err = ((termMsgs st'.trace).head?).map QErr.invalidArgument := by
    have hsuffix : termMsgs (if sched then [Ev.start started] else []) = [] := by
      cases sched <;> rfl
    rw [herr, htrace, termMsgs_append, termMsgs_append, termMsgs_term, hsuffix,
      List.append_nil]
    rcases msg with _ | m
    · simpa [captureErr] using h8
    · rcases herr0 : st.err with _ | x
      · have hn : (termMsgs st.trace).head? = none := by
          rw [herr0] at h8
          exact Option.map_eq_none'.mp h8.symm
        have hnil : termMsgs st.trace = [] := by
          cases hms : termMsgs st.trace with
          | nil => rfl
          | cons y l => rw [hms] at hn; cases hn
        rw [hnil]
        simp [captureErr]
      · rcases hms : termMsgs st.trace with _ | ⟨y, l⟩
        · rw [hms, herr0] at h8
          cases h8
        · rw [hms, herr0] at h8
          rw [List.cons_append]
          simpa [captureErr] using h8
  cases sched with
  | false =>
    rw [if_neg (by simp)] at hstarted htrace
    rw [List.append_nil] at htrace
    have e1 : countStarts [Ev.term i msg false] = 0 := rfl
    have e2 : countTerms [Ev.term i msg false] = 1 := rfl
    have e3 : countScheds [Ev.term i msg false] = 0 := rfl
    have e4 : yields [Ev.term i msg false] = [] := rfl
    subst hstarted
    refine ⟨?_, ?_, ?_, ?_, ?_, ?_, ?_, herr2, ?_⟩
    · rw [htrace, countStarts_append, e1, Nat.add_zero]; exact h1
    · rw [htrace, countScheds_append, e3, Nat.add_zero]; exact h2
    · rw [htrace, lastYield_append_no_yield _ _ e4, hcont]; exact h3
    · rw [htrace]
      refine schedOk_snoc total _ _ h4 ?_
      intro i1 m1 s1 heq
      injection heq with hi hm hs
      rw [← hs, h3, h1]
      exact hsched
    · intro hp
      rw [htrace, yields_append, h5 hp, e4]
      rfl
    · rw [htrace, countTerms_append, e2]
      omega
    · rw [htrace]
      refine concBound_snoc limit _ _ h7 ?_
      rw [countStarts_append, countTerms_append, e1, e2, h1]
      omega
    · obtain ⟨u, hu⟩ := h9
      exact ⟨u ++ [Ev.term i msg false], by rw [htrace, hu, List.append_assoc]⟩
  | true =>
    rw [if_pos rfl] at hstarted htrace
    have e1 : countStarts [Ev.term i msg true] = 0 := rfl
    have e2 : countTerms [Ev.term i msg true] = 1 := rfl
    have e3 : countScheds [Ev.term i msg true] = 1 := rfl
    have e4 : yields [Ev.term i msg true] = [] := rfl
    have f1 : countStarts [Ev.start started] = 1 := rfl
    have f2 : countTerms [Ev.start started] = 0 := rfl
    have f3 : countScheds [Ev.start started] = 0 := rfl
    have f4 : yields [Ev.start started] = [] := rfl
    subst hstarted
    refine ⟨?_, ?_, ?_, ?_, ?_, ?_, ?_, herr2, ?_⟩
    · rw [htrace, countStarts_append, countStarts_append, e1, f1, h1]
    · rw [htrace, countScheds_append, countScheds_append, e3, f3]
      omega
    · rw [htrace, lastYield_append_no_yield _ _ f4, lastYield_append_no_yield _ _ e4, hcont]
      exact h3
    · rw [htrace]
      refine schedOk_snoc total _ _ ?_ ?_
      · refine schedOk_snoc total _ _ h4 ?_
        intro i1 m1 s1 heq
        injection heq with hi hm hs
        rw [← hs, h3, h1]
        exact hsched
      · intro i1 m1 s1 heq
        cases heq
    · intro hp
      rw [htrace, yields_append, yields_append, h5 hp, e4, f4]
      rfl
    · rw [htrace, countTerms_append, countTerms_append, e2, f2]
      omega
    · rw [htrace]
      refine concBound_snoc limit _ _ ?_ ?_
      · refine concBound_snoc limit _ _ h7 ?_
        rw [countStarts_append, countTerms_append, e1, e2, h1]
        omega
      · rw [countStarts_append, countStarts_append, countTerms_append, countTerms_append,
          e1, e2, f1, f2, h1]
        omega
    · obtain ⟨u, hu⟩ := h9
      exact ⟨u ++ [Ev.term i msg true] ++ [Ev.start started],
        by rw [htrace, hu, List.append_assoc, List.append_assoc, List.append_assoc]⟩

/-- The inner drain loop of `runQuerySpec` preserves the invariant. -/
theorem drainShard_inv (isExplain hasProc : Bool) (oracle : Nat → Bool)
    (total initial limit i : Nat) :
    ∀ (stream : List Response) (started : Nat) (st : RunState),
      Inv total initial limit hasProc started st →
      Inv total initial limit hasProc
        (drainShard isExplain hasProc oracle total i stream started st).2
        (drainShard isExplain hasProc oracle total i stream started st).1 := by
  intro stream
  induction stream with
  | nil =>
    intro started st hinv
    rw [drainShard]
    exact inv_congr _ _ _ _ _ _ _ hinv rfl rfl rfl
  | cons r rest ih =>
    intro started st hinv
    simp only [drainShard]
    by_cases hterm : r.isTerminal = true
    · rw [if_pos hterm]
      split
      · rename_i hc
        exact inv_term_step total initial limit hasProc started st _ i r.errorMessage _
          (started + 1) hinv rfl (by simp [hc]) (by simp [hc]) rfl rfl
      · rename_i hc
        have hcf : ({ st with err := captureErr r.errorMessage st.err }.shouldContinue &&
            decide (started < total)) = false := by
          revert hc
          cases ({ st with err := captureErr r.errorMessage st.err }.shouldContinue &&
            decide (started < total)) <;> simp
        exact inv_term_step total initial limit hasProc started st _ i r.errorMessage _
          started hinv rfl (by simp [hcf]) (by simp [hcf]) rfl rfl
    · rw [if_neg hterm]
      rcases hser : r.series with _ | s
      · exact ih started st hinv
      · dsimp only
        by_cases hemp : s.points.isEmpty = true
        · rw [if_pos hemp]
          exact ih started st hinv
        · rw [if_neg hemp]
          by_cases hp : hasProc = true
        -- the processor branch: YieldSeries updates shouldContinue
          · subst hp
            rw [if_pos rfl]
            exact ih started _ (inv_yield_step total initial limit started st _
              (oracle st.yieldCount) hinv rfl rfl rfl)
          · have hpf : hasProc = false := by revert hp; cases hasProc <;> simp
            rw [if_neg hp]
            by_cases hx : (!(r.type == RespType.queryResponse && isExplain)) = true
            · rw [if_pos hx]
              exact ih started _ (inv_sink total initial limit hasProc started st _
                (Ev.sinkWrite s) hinv (Or.inr ⟨s, rfl⟩) rfl rfl rfl)
            · rw [if_neg hx]
              exact ih started st hinv

/-- The outer consumer loop of `runQuerySpec` preserves the invariant, for
some final number of started shards. -/
theorem consumeShards_inv (isExplain hasProc : Bool) (oracle : Nat → Bool)
    (total initial limit : Nat) :
    ∀ (shards : List ShardData) (i started : Nat) (st : RunState),
      Inv total initial limit hasProc started st →
      ∃ started2, Inv total initial limit hasProc started2
        (consumeShards isExplain hasProc oracle total shards i started st) := by
  intro shards
  induction shards with
  | nil =>
    intro i started st hinv
    exact ⟨started, hinv⟩
  | cons shard rest ih =>
    intro i started st hinv
    simp only [consumeShards]
    by_cases hle : started ≤ i
    · rw [if_pos hle]
      exact ⟨started, hinv⟩
    · rw [if_neg hle]
      have hd := drainShard_inv isExplain hasProc oracle total initial limit i
        shard.stream started st hinv
      by_cases hh : (drainShard isExplain hasProc oracle total i shard.stream started st).1.hung = true
      · rw [if_pos hh]
        exact ⟨_, hd⟩
      · rw [if_neg hh]
        exact ih (i + 1) _ _ hd

/-- The sink-closing goroutine preserves the invariant: it only appends sink
events. -/
theorem drainProcessorOutput_inv (isExplain : Bool)
    (total initial limit : Nat) (hasProc : Bool) :
    ∀ (output : List Response) (started : Nat) (st : RunState),
      Inv total initial limit hasProc started st →
      Inv total initial limit hasProc started
        (drainProcessorOutput isExplain output st) := by
  intro output
  induction output with
  | nil =>
    intro started st hinv
    rw [drainProcessorOutput]
    exact inv_congr _ _ _ _ _ _ _ hinv rfl rfl rfl
  | cons r rest ih =>
    intro started st hinv
    rw [drainProcessorOutput]
    by_cases hterm : r.isTerminal = true
    · rw [if_pos hterm]
      exact inv_sink total initial limit hasProc started st _ Ev.sinkClose hinv
        (Or.inl rfl) rfl rfl rfl
    · rw [if_neg hterm]
      by_cases hx : (!(r.type == RespType.queryResponse && isExplain)) = true
      · rw [if_pos hx]
        rcases hser : r.series with _ | s
        · exact ih started st hinv
        · dsimp only
          by_cases hemp : s.points.isEmpty = true
          · rw [if_pos hemp]
            exact ih started st hinv
          · rw [if_neg hemp]
            exact ih started _ (inv_sink total initial limit hasProc started st _
              (Ev.sinkWrite s) hinv (Or.inr ⟨s, rfl⟩) rfl rfl rfl)
      · rw [if_neg hx]
        exact ih started st hinv

/-- The shard list returned by `getShardsAndProcessor` is the catalog
list unchanged. -/
theorem getShardsAndProcessor_fst (q : QuerySpec) (s : List ShardData) :
    (getShardsAndProcessor q s).1 = s := rfl

/-- The full invariant holds of the final state of every `runQuerySpec`
execution, for some final number of started shards. -/
theorem runQuerySpec_inv (inp : RunQuerySpecInput) :
    ∃ started, Inv inp.shards.length
      (min (shardConcurrentLimit inp) inp.shards.length)
      (shardConcurrentLimit inp)
      ((getShardsAndProcessor inp.querySpec inp.shards).2).isSome
      started (runQuerySpec inp) := by
  have h0 : Inv inp.shards.length (min (shardConcurrentLimit inp) inp.shards.length)
      (shardConcurrentLimit inp) ((getShardsAndProcessor inp.querySpec inp.shards).2).isSome
      (min (shardConcurrentLimit inp) inp.shards.length)
      { trace := (List.range (min (shardConcurrentLimit inp) inp.shards.length)).map Ev.start,
        shouldContinue := false, yieldCount := 0, err := none, hung := false } := by
    refine ⟨?_, ?_, ?_, ?_, ?_, ?_, ?_, ?_, ?_⟩
    · exact countStarts_startBlock _
    · rw [countScheds_startBlock]
      omega
    · simp [lastYield, yields_startBlock]
    · exact schedOk_startBlock _ _
    · intro _
      exact yields_startBlock _
    · rw [countTerms_startBlock]
      have := Nat.min_le_left (shardConcurrentLimit inp) inp.shards.length
      omega
    · exact concBound_startBlock _ _ (Nat.min_le_left _ _)
    · simp [termMsgs_startBlock]
    · exact ⟨[], (List.append_nil _).symm⟩
  obtain ⟨s2, h1⟩ := consumeShards_inv inp.querySpec.isExplainQuery
    ((getShardsAndProcessor inp.querySpec inp.shards).2).isSome inp.yieldOracle
    inp.shards.length (min (shardConcurrentLimit inp) inp.shards.length)
    (shardConcurrentLimit inp) inp.shards 0
    (min (shardConcurrentLimit inp) inp.shards.length) _ h0
  simp only [runQuerySpec, getShardsAndProcessor_fst]
  by_cases hh : (consumeShards inp.querySpec.isExplainQuery
      ((getShardsAndProcessor inp.querySpec inp.shards).2).isSome inp.yieldOracle
      inp.shards.length inp.shards 0
      (min (shardConcurrentLimit inp) inp.shards.length)
      { trace := (List.range (min (shardConcurrentLimit inp) inp.shards.length)).map Ev.start,
        shouldContinue := false, yieldCount := 0, err := none, hung := false }).hung = true
  · rw [if_pos hh]
    exact ⟨s2, h1⟩
  · rw [if_neg hh]
    rcases hproc : (getShardsAndProcessor inp.querySpec inp.shards).2 with _ | proc
    · rw [hproc] at h1
      exact ⟨s2, inv_sink _ _ _ _ _ _ _ Ev.sinkClose h1 (Or.inl rfl) rfl rfl rfl⟩
    · rw [hproc] at h1
      exact ⟨s2, drainProcessorOutput_inv inp.querySpec.isExplainQuery _ _ _ _
        inp.processorOutput s2 _ h1⟩

/-- A trace with correct scheduling decisions and no yields schedules
nothing: `shouldContinue` never became true. -/
theorem countScheds_zero_of_no_yields (total : Nat) (t : List Ev)
    (hok : SchedOk total t) (hy : yields t = []) : countScheds t = 0 := by
  rw [countScheds, List.length_eq_zero, List.filter_eq_nil_iff]
  intro e he hp
  rcases e with i | b | ⟨i, m, sched⟩ | s | _
  · simp at hp
  · simp at hp
  · cases sched with
    | false => simp at hp
    | true =>
      obtain ⟨pre, post, hsplit⟩ := List.append_of_mem he
      have hok2 := hok pre i m true post hsplit
      have hypre : yields pre = [] := by
        rw [hsplit, yields_append] at hy
        exact (List.append_eq_nil.mp hy).1
      rw [lastYield, hypre] at hok2
      simp at hok2
  · simp at hp
  · simp at hp

/-- C3 (counterexample): a non-SELECT over two locally-aggregating shards
with concurrency limit 1 installs no processor, and the second shard is
never scheduled — the consumed terminal records a scheduling decision of
`false` although there is no processor and an unstarted shard remains. -/
theorem runQuerySpec_no_processor_stops_cex :
    (getShardsAndProcessor cNoProcInput.querySpec cNoProcInput.shards).2 = none ∧
      cNoProcInput.shards.length = 2 ∧
      (runQuerySpec cNoProcInput).trace =
        [Ev.start 0, Ev.term 0 none false, Ev.sinkClose] :=
  ⟨rfl, rfl, rfl⟩

/-- C3 (amended): at every consumed terminal response, the next unstarted
shard is scheduled iff the most recent `YieldSeries` call returned true
(`shouldContinue` starts out false) and an unstarted shard remains; in
particular, with no processor installed, no shard beyond the initial batch
is ever scheduled. -/
theorem runQuerySpec_scheduling (inp : RunQuerySpecInput) :
    SchedOk inp.shards.length (runQuerySpec inp).trace ∧
      ((getShardsAndProcessor inp.querySpec inp.shards).2 = none →
        countStarts (runQuerySpec inp).trace =
          min (shardConcurrentLimit inp) inp.shards.length) := by
  obtain ⟨s, hinv⟩ := runQuerySpec_inv inp
  refine ⟨hinv.sched_ok, ?_⟩
  intro hproc
  have hy : yields (runQuerySpec inp).trace = [] := by
    refine hinv.no_yields ?_
    rw [hproc]
    rfl
  have hz := countScheds_zero_of_no_yields inp.shards.length _ hinv.sched_ok hy
  have h1 := hinv.starts_eq
  have h2 := hinv.scheds_eq
  omega

/-- C3 (witness for the amended theorem): in a sequential run whose
processor yields true, the consumed terminal of shard 0 records a
scheduling decision equal to that yield; and with no processor only the one
initial shard is ever started. -/
theorem runQuerySpec_scheduling_witness :
    (true = (lastYield [Ev.start 0, Ev.yield true] &&
        decide (countStarts [Ev.start 0, Ev.yield true] < 2))) ∧
      countStarts (runQuerySpec cNoProcInput).trace = 1 :=
  ⟨(runQuerySpec_scheduling cSeqInput).1 [Ev.start 0, Ev.yield true] 0 none true
      [Ev.start 1, Ev.yield true, Ev.term 1 (some "boom2") false, Ev.sinkClose] rfl,
    (runQuerySpec_scheduling cNoProcInput).2 rfl⟩

/-- C4: when at least one selected shard reports that it cannot aggregate
locally, the effective shard-query concurrency of `runQuerySpec` is 1:
the first event is the start of shard 0 (when shards exist), and at every
point of the trace the number of started shard queries exceeds the number
of consumed shard terminations by at most one. -/
theorem runQuerySpec_sequential_concurrency (inp : RunQuerySpecInput)
    (hseq : shouldAggregateLocally inp.shards = false) :
    ConcBound 1 (runQuerySpec inp).trace ∧
      (inp.shards ≠ [] → (runQuerySpec inp).trace.head? = some (Ev.start 0)) := by
  obtain ⟨s, hinv⟩ := runQuerySpec_inv inp
  have hlimit : shardConcurrentLimit inp = 1 := by
    simp [shardConcurrentLimit, shouldQuerySequentially, hseq]
  constructor
  · have hc := hinv.conc_bound
    rw [hlimit] at hc
    exact hc
  · intro hne
    obtain ⟨u, hu⟩ := hinv.init_pre
    have hmin : min (shardConcurrentLimit inp) inp.shards.length = 1 := by
      rw [hlimit]
      have hpos : 1 ≤ inp.shards.length := by
        cases hs : inp.shards with
        | nil => exact absurd hs hne
        | cons a l => simp
      omega
    rw [hu, hmin]
    rfl

/-- C4 (witness): evaluated on a concrete sequential two-shard run: every
prefix has at most one more start than terminations, and the trace begins
with the start of shard 0. -/
theorem runQuerySpec_sequential_concurrency_witness :
    countStarts [Ev.start 0, Ev.yield true] ≤ countTerms [Ev.start 0, Ev.yield true] + 1 ∧
      (runQuerySpec cSeqInput).trace.head? = some (Ev.start 0) :=
  ⟨(runQuerySpec_sequential_concurrency cSeqInput rfl).1 [Ev.start 0, Ev.yield true]
      [Ev.term 0 none true, Ev.start 1, Ev.yield true, Ev.term 1 (some "boom2") false,
        Ev.sinkClose] rfl,
    (runQuerySpec_sequential_concurrency cSeqInput rfl).2 (by decide)⟩

/-- C5: when a `runQuerySpec` execution consumes terminal responses carrying
error messages and the call returns, the returned error is the
InvalidArgument error built from the first such message; messages of later
shards do not change it. -/
theorem runQuerySpec_first_error (inp : RunQuerySpecInput) (m : String)
    (hm : (termMsgs (runQuerySpec inp).trace).head? = some m)
    (_hret : (runQuerySpec inp).hung = false) :
    (runQuerySpec inp).err = some (.invalidArgument m) := by
  obtain ⟨s, hinv⟩ := runQuerySpec_inv inp
  rw [hinv.err_eq, hm]
  rfl

/-- C5 (witness): two shards fail with "boom1" then "boom2"; the call
returns InvalidArgument "boom1". -/
theorem runQuerySpec_first_error_witness :
    (runQuerySpec cErrInput).err = some (.invalidArgument "boom1") :=
  runQuerySpec_first_error cErrInput "boom1" rfl rfl

end Coordinator
